import Mathlib

/-!
A shallow embedding of `src/sync_key_gen.rs` from the `hbbft` repository: a
synchronous, dealerless distributed key generation protocol.  The DKG state
machine (`SyncKeyGen` with `handle_propose`, `handle_accept`, `generate`,
`count_complete`, `is_ready`, ...) is translated function by function from the
Rust source.  The cryptographic primitives it calls (`crypto::poly`,
`crypto::{Ciphertext, PublicKey, SecretKey}`, `bincode` serialization) live in
modules of the repository outside `src/`; they are modelled abstractly as a
bundle of operations (`Crypto`), following the interface the specification
lists for them.  `BTreeMap`/`BTreeSet` are modelled as key-ascending
association lists / element lists with the corresponding operations.
-/

/-- Modelled from the spec: the required cryptographic primitives (scalar field
`Fr`, curve group `G1` with fixed generator, univariate and bivariate
polynomials and commitments, hybrid public-key encryption, canonical
serialization).  The `crypto` and `bincode` modules are part of the repository
or its dependencies but are not under `src/`, so only their interface is
embedded, as a structure of abstract types and operations.
`g1MulBase v` is `G1Affine::one().mul(v)`, i.e. `g₁ · v`; `pcZero` is
`Poly::zero().commitment()`; `bcRow c i` is `BivarCommitment::row`;
`bcEval c x y` is `BivarCommitment::evaluate`; `deserPoly`/`deserFr` model
`bincode::deserialize` (an `Option` holding the parse result); `decrypt`
models `SecretKey::decrypt` returning `Option` of the plaintext bytes. -/
structure Crypto : Type 1 where
  Fr : Type
  G1 : Type
  PolyT : Type
  PolyCommit : Type
  BivarPolyT : Type
  BivarCommit : Type
  Bytes : Type
  Ciphertext : Type
  PublicKey : Type
  SecretKey : Type
  frZero : Fr
  frAdd : Fr → Fr → Fr
  g1MulBase : Fr → G1
  g1DecEq : DecidableEq G1
  pcDecEq : DecidableEq PolyCommit
  pcZero : PolyCommit
  pcAdd : PolyCommit → PolyCommit → PolyCommit
  bcRow : BivarCommit → Nat → PolyCommit
  bcEval : BivarCommit → Nat → Nat → G1
  polyCommitment : PolyT → PolyCommit
  polyEval : PolyT → Nat → Fr
  interpolate : List (Nat × Fr) → PolyT
  bpRow : BivarPolyT → Nat → PolyT
  bpCommitment : BivarPolyT → BivarCommit
  encrypt : PublicKey → Bytes → Ciphertext
  decrypt : SecretKey → Ciphertext → Option Bytes
  serPoly : PolyT → Bytes
  deserPoly : Bytes → Option PolyT
  serFr : Fr → Bytes
  deserFr : Bytes → Option Fr

/-- Boolean equality test on `G1` (Rust `PartialEq` / `!=` on curve points). -/
def beqG1 {C : Crypto} (a b : C.G1) : Bool :=
  @decide (a = b) (C.g1DecEq a b)

/-- Boolean equality test on polynomial commitments (Rust `PartialEq`). -/
def beqPC {C : Crypto} (a b : C.PolyCommit) : Bool :=
  @decide (a = b) (C.pcDecEq a b)

/-- `BTreeMap` lookup (`get` / `get_mut` read): the value at key `k`. -/
def alLookup {α : Type} (k : Nat) : List (Nat × α) → Option α
  | [] => none
  | (k', v) :: rest => if k = k' then some v else alLookup k rest

/-- `BTreeMap::insert` on a key-ascending association list: inserts at the
sorted position, replacing an existing binding of the same key. -/
def mapInsert {α : Type} (k : Nat) (v : α) : List (Nat × α) → List (Nat × α)
  | [] => [(k, v)]
  | (k', v') :: rest =>
    if k < k' then (k, v) :: (k', v') :: rest
    else if k = k' then (k, v) :: rest
    else (k', v') :: mapInsert k v rest

/-- Mutation through `BTreeMap::get_mut`: rewrite the entry at key `k` in
place, leaving every other entry alone. -/
def alUpdate {α : Type} (k : Nat) (f : α → α) : List (Nat × α) → List (Nat × α)
  | [] => []
  | (k', v) :: rest =>
    if k' = k then (k', f v) :: rest else (k', v) :: alUpdate k f rest

/-- Insert a new element into an ascending element list at its position. -/
def insertSorted (x : Nat) : List Nat → List Nat
  | [] => [x]
  | y :: ys => if x ≤ y then x :: y :: ys else y :: insertSorted x ys

/-- `BTreeSet::insert`: returns whether the element was newly inserted,
together with the updated set. -/
def setInsert (x : Nat) (l : List Nat) : Bool × List Nat :=
  if x ∈ l then (false, l) else (true, insertSorted x l)

/-- Modelled from the spec: the fault log component (`fault_log.rs` is not
under `src/`).  `FaultKind` is one of `invalid-propose`
(`InvalidProposeMessage`) and `invalid-accept` (`InvalidAcceptMessage`). -/
inductive FaultKind where
  | InvalidProposeMessage
  | InvalidAcceptMessage
deriving DecidableEq

/-- Modelled from the spec: a fault log is an append-only list of
`(node_id, FaultKind)` pairs.  `FaultLog::new()` is `[]`; `FaultLog::init`
makes a singleton; `append` pushes one entry. -/
abbrev FaultLog (NodeUid : Type) := List (NodeUid × FaultKind)

/-- `Propose(BivarCommitment, Vec<Ciphertext>)`: a validator's submission, a
commitment to a bivariate polynomial plus one encrypted row per node. -/
structure Propose (C : Crypto) where
  commit : C.BivarCommit
  rows : List C.Ciphertext

/-- `Accept(u64, Vec<Ciphertext>)`: confirmation of a proposal, carrying one
encrypted value of our row for each node. -/
structure Accept (C : Crypto) where
  proposer_idx : Nat
  vals : List C.Ciphertext

/-- `ProposalState`: commitment, verified values from `Accept` messages, and
the set of nodes that accepted the proposal. -/
structure ProposalState (C : Crypto) where
  commit : C.BivarCommit
  values : List (Nat × C.Fr)
  accepts : List Nat

/-- `ProposalState::new`: a fresh state holding just the commitment. -/
def ProposalState.new {C : Crypto} (commit : C.BivarCommit) : ProposalState C :=
  ⟨commit, [], []⟩

/-- `ProposalState::is_complete`: at least `2 * threshold + 1` accepts. -/
def ProposalState.is_complete {C : Crypto} (p : ProposalState C)
    (threshold : Nat) : Bool :=
  decide (2 * threshold < p.accepts.length)

/-- `ProposeOutcome`: result of handling and verifying a `Propose` message. -/
inductive ProposeOutcome (NodeUid : Type) (C : Crypto) where
  | Valid (accept : Accept C)
  | Invalid (fault_log : FaultLog NodeUid)

/-- The `SyncKeyGen` instance: our index (or `None` for an observer), our
secret key, the public keys of all nodes by node id (the `BTreeMap` in key
order), the proposals, and the threshold. -/
structure SyncKeyGen (NodeUid : Type) (C : Crypto) where
  our_idx : Option Nat
  sec_key : C.SecretKey
  pub_keys : List (NodeUid × C.PublicKey)
  proposals : List (Nat × ProposalState C)
  threshold : Nat

variable {NodeUid : Type} [DecidableEq NodeUid] {C : Crypto}

/-- `SyncKeyGen::node_index`: the position of a node id among the keys of
`pub_keys`, or `None` if it is unknown. -/
def SyncKeyGen.node_index (st : SyncKeyGen NodeUid C) (node_id : NodeUid) :
    Option Nat :=
  (st.pub_keys.map Prod.fst).findIdx? (fun uid => decide (uid = node_id))

/-- `SyncKeyGen::new`: creates the instance and, for validators, the
`Propose` message.  The bivariate polynomial `our_proposal`, sampled in the
Rust code from `OsRng`, is passed in as the argument `sample`; everything
else is the deterministic part of the constructor. -/
def SyncKeyGen.new (our_uid : NodeUid) (sec_key : C.SecretKey)
    (pub_keys : List (NodeUid × C.PublicKey)) (threshold : Nat)
    (sample : C.BivarPolyT) : SyncKeyGen NodeUid C × Option (Propose C) :=
  let our_idx :=
    (pub_keys.map Prod.fst).findIdx? (fun uid => decide (uid = our_uid))
  let key_gen : SyncKeyGen NodeUid C :=
    ⟨our_idx, sec_key, pub_keys, [], threshold⟩
  match our_idx with
  | none => (key_gen, none)  -- No proposal: we are an observer.
  | some _ =>
    let commit := C.bpCommitment sample
    let rows := (pub_keys.map Prod.snd).enum.map
      (fun ipk => C.encrypt ipk.2 (C.serPoly (C.bpRow sample (ipk.1 + 1))))
    (key_gen, some ⟨commit, rows⟩)

/-- `SyncKeyGen::handle_propose`: handles a `Propose` message, returning the
outcome together with the updated instance (the Rust method mutates `self`).
Decryption failure of our row, like an out-of-range `our_idx`, propagates
through `?` as `None`. -/
def SyncKeyGen.handle_propose (st : SyncKeyGen NodeUid C)
    (sender_id : NodeUid) (msg : Propose C) :
    Option (ProposeOutcome NodeUid C) × SyncKeyGen NodeUid C :=
  match st.node_index sender_id with
  | none => (none, st)
  | some sender_idx =>
    let opt_commit_row := st.our_idx.map (fun idx => C.bcRow msg.commit (idx + 1))
    match alLookup sender_idx st.proposals with
    | some _ => (none, st)  -- Ignore multiple proposals.
    | none =>
      let st1 := { st with
        proposals :=
          mapInsert sender_idx (ProposalState.new msg.commit) st.proposals }
      match st.our_idx with
      | none => (none, st1)  -- We are only an observer.
      | some our_idx =>
        match opt_commit_row with
        | none => (none, st1)
        | some commit_row =>
          match msg.rows[our_idx]? with
          | none => (none, st1)  -- rows.get(our_idx)? : out of range
          | some ct =>
            match C.decrypt st.sec_key ct with
            | none => (none, st1)  -- sec_key.decrypt(..)? : failure gives None
            | some ser_row =>
              match C.deserPoly ser_row with
              | none =>
                (some (ProposeOutcome.Invalid
                  [(sender_id, FaultKind.InvalidProposeMessage)]), st1)
              | some row =>
                if beqPC (C.polyCommitment row) commit_row then
                  let vals := (st.pub_keys.map Prod.snd).enum.map
                    (fun ipk =>
                      C.encrypt ipk.2 (C.serFr (C.polyEval row (ipk.1 + 1))))
                  (some (ProposeOutcome.Valid ⟨sender_idx, vals⟩), st1)
                else
                  (some (ProposeOutcome.Invalid
                    [(sender_id, FaultKind.InvalidProposeMessage)]), st1)

/-- `SyncKeyGen::handle_accept_or_err`: handles an `Accept` message or
returns an error string, together with the updated instance.  The insertion
of `sender_idx` into `accepts` happens before the value checks, so a later
failure leaves the acceptor recorded.  The Rust expression
`values[our_idx as usize]` panics when the index is out of bounds; that
branch is modelled as the distinguished error "index out of bounds". -/
def SyncKeyGen.handle_accept_or_err (st : SyncKeyGen NodeUid C)
    (sender_idx : Nat) (acc : Accept C) :
    Except String Unit × SyncKeyGen NodeUid C :=
  if acc.vals.length ≠ st.pub_keys.length then
    (Except.error "wrong node count", st)
  else
    match alLookup acc.proposer_idx st.proposals with
    | none => (Except.error "sender does not exist", st)
    | some proposal =>
      let st1 := { st with
        proposals := alUpdate acc.proposer_idx
          (fun p => { p with accepts := (setInsert sender_idx p.accepts).2 })
          st.proposals }
      if (setInsert sender_idx proposal.accepts).1 = false then
        (Except.error "duplicate accept", st1)
      else
        match st.our_idx with
        | none => (Except.ok (), st1)  -- Observer: nothing to decrypt for us.
        | some our_idx =>
          match acc.vals[our_idx]? with
          | none => (Except.error "index out of bounds", st1)
          | some ct =>
            match C.decrypt st.sec_key ct with
            | none => (Except.error "value decryption failed", st1)
            | some ser_val =>
              match C.deserFr ser_val with
              | none => (Except.error "deserialization failed", st1)
              | some val =>
                if beqG1 (C.bcEval proposal.commit (our_idx + 1) (sender_idx + 1))
                    (C.g1MulBase val) then
                  (Except.ok (), { st1 with
                    proposals := alUpdate acc.proposer_idx
                      (fun p =>
                        { p with values := mapInsert (sender_idx + 1) val p.values })
                      st1.proposals })
                else
                  (Except.error "wrong value", st1)

/-- `SyncKeyGen::handle_accept`: resolves the sender, delegates to
`handle_accept_or_err`, and converts an error into a fault-log entry. -/
def SyncKeyGen.handle_accept (st : SyncKeyGen NodeUid C)
    (sender_id : NodeUid) (acc : Accept C) :
    FaultLog NodeUid × SyncKeyGen NodeUid C :=
  match st.node_index sender_id with
  | none => ([], st)
  | some sender_idx =>
    match st.handle_accept_or_err sender_idx acc with
    | (Except.ok _, st') => ([], st')
    | (Except.error _, st') =>
      ([(sender_id, FaultKind.InvalidAcceptMessage)], st')

/-- `SyncKeyGen::count_complete`: the number of complete proposals. -/
def SyncKeyGen.count_complete (st : SyncKeyGen NodeUid C) : Nat :=
  ((st.proposals.map Prod.snd).filter
    (fun proposal => proposal.is_complete st.threshold)).length

/-- `SyncKeyGen::is_node_ready`: whether the given node's proposal is
complete. -/
def SyncKeyGen.is_node_ready (st : SyncKeyGen NodeUid C)
    (proposer_id : NodeUid) : Bool :=
  match st.node_index proposer_id with
  | none => false
  | some proposer_idx =>
    match alLookup proposer_idx st.proposals with
    | none => false
    | some proposal => proposal.is_complete st.threshold

/-- `SyncKeyGen::is_ready`: whether enough proposals are complete. -/
def SyncKeyGen.is_ready (st : SyncKeyGen NodeUid C) : Bool :=
  decide (st.threshold < st.count_complete)

/-- `SyncKeyGen::generate`: the public key set (here: its commitment, the
payload of `PublicKeySet`) and, for validators, the secret key share (the
scalar `SecretKeyShare::from_value` wraps). -/
def SyncKeyGen.generate (st : SyncKeyGen NodeUid C) :
    C.PolyCommit × Option C.Fr :=
  let init : C.PolyCommit × Option C.Fr :=
    (C.pcZero, st.our_idx.map (fun _ => C.frZero))
  let step := fun (acc : C.PolyCommit × Option C.Fr) (proposal : ProposalState C) =>
    (C.pcAdd acc.1 (C.bcRow proposal.commit 0),
     acc.2.map (fun sk_val =>
       C.frAdd sk_val
         (C.polyEval (C.interpolate (proposal.values.take (st.threshold + 1))) 0)))
  ((st.proposals.map Prod.snd).filter
    (fun proposal => proposal.is_complete st.threshold)).foldl step init

/-- Insert an entry into an association list before the first entry with a
key that is not smaller. -/
def insertByKey {α : Type} (e : Nat × α) : List (Nat × α) → List (Nat × α)
  | [] => [e]
  | f :: rest => if e.1 ≤ f.1 then e :: f :: rest else f :: insertByKey e rest

/-- Insertion sort of an association list by ascending key. -/
def sortByKey {α : Type} : List (Nat × α) → List (Nat × α)
  | [] => []
  | e :: rest => insertByKey e (sortByKey rest)

/-- Written from the specification's description of `generate` (§4.2),
independently of the code: start from the zero-polynomial commitment
`P := 0` and, for a validator, a running scalar `s := 0`; for every proposal
with `|accepts| > 2t`, taken in ascending proposer-index order, add the
commitment row at `0` of its bivariate commitment to `P` and (validator
only) add to `s` the value at `0` of the polynomial interpolated through the
lowest `t + 1` `(point, value)` pairs of its `values`; observers receive no
scalar. -/
def generateSpec (st : SyncKeyGen NodeUid C) : C.PolyCommit × Option C.Fr :=
  let complete := (sortByKey (st.proposals.filter
    (fun e => decide (2 * st.threshold < e.2.accepts.length)))).map Prod.snd
  let P := complete.foldl (fun a p => C.pcAdd a (C.bcRow p.commit 0)) C.pcZero
  match st.our_idx with
  | none => (P, none)
  | some _ =>
    (P, some (complete.foldl
      (fun s p => C.frAdd s
        (C.polyEval (C.interpolate (p.values.take (st.threshold + 1))) 0))
      C.frZero))

/-- States reachable from `st` by a sequence of `handle_propose` and
`handle_accept` calls with arbitrary senders and messages. -/
inductive Reach : SyncKeyGen NodeUid C → SyncKeyGen NodeUid C → Prop where
  | refl (st : SyncKeyGen NodeUid C) : Reach st st
  | propose (st st' : SyncKeyGen NodeUid C) (sender_id : NodeUid)
      (msg : Propose C) (h : Reach st st') :
      Reach st (st'.handle_propose sender_id msg).2
  | accept (st st' : SyncKeyGen NodeUid C) (sender_id : NodeUid)
      (acc : Accept C) (h : Reach st st') :
      Reach st (st'.handle_accept sender_id acc).2

/-- The invariant of claim C5: on a validator, every entry of every
proposal's `values` map passed the commitment check against that proposal's
stored bivariate commitment. -/
def ValuesVerified (st : SyncKeyGen NodeUid C) : Prop :=
  ∀ i, st.our_idx = some i →
    ∀ pidx p, alLookup pidx st.proposals = some p →
      ∀ s v, alLookup s p.values = some v →
        C.bcEval p.commit (i + 1) s = C.g1MulBase v

/-- The invariant of claim C10: a validator's index is a position in the
roster, hence strictly below the roster size. -/
def WellIndexed (st : SyncKeyGen NodeUid C) : Prop :=
  ∀ i, st.our_idx = some i → i < st.pub_keys.length

/-- A concrete instantiation of the crypto interface, used to evaluate the
development on explicit inputs: every abstract type is `Nat`, encryption and
serialization are the identity, decryption always succeeds. -/
@[reducible] def TestCrypto : Crypto where
  Fr := Nat
  G1 := Nat
  PolyT := Nat
  PolyCommit := Nat
  BivarPolyT := Nat
  BivarCommit := Nat
  Bytes := Nat
  Ciphertext := Nat
  PublicKey := Nat
  SecretKey := Nat
  frZero := 0
  frAdd := Nat.add
  g1MulBase := fun v => v
  g1DecEq := fun a b => Nat.decEq a b
  pcDecEq := fun a b => Nat.decEq a b
  pcZero := 0
  pcAdd := Nat.add
  bcRow := fun _ _ => 0
  bcEval := fun _ _ _ => 0
  polyCommitment := fun _ => 0
  polyEval := fun _ _ => 0
  interpolate := fun _ => 0
  bpRow := fun _ _ => 0
  bpCommitment := fun _ => 0
  encrypt := fun _ b => b
  decrypt := fun _ c => some c
  serPoly := fun p => p
  deserPoly := fun b => some b
  serFr := fun v => v
  deserFr := fun b => some b

/-- The same concrete instantiation, but with a decryption that fails. -/
abbrev TestCryptoND : Crypto :=
  { TestCrypto with decrypt := fun _ _ => none }

/-- A three-node validator instance (index 0) with no proposals yet. -/
abbrev wStateEmpty : SyncKeyGen Nat TestCrypto :=
  ⟨some 0, 0, [(0, 0), (1, 0), (2, 0)], [], 1⟩

/-- A three-node validator instance with an existing proposal for index 1. -/
abbrev wStateProp : SyncKeyGen Nat TestCrypto :=
  ⟨some 0, 0, [(0, 0), (1, 0), (2, 0)], [(1, ⟨5, [], []⟩)], 1⟩

/-- A validator instance over the failing-decryption crypto. -/
abbrev cexState1 : SyncKeyGen Nat TestCryptoND :=
  ⟨some 0, 0, [(0, 0), (1, 0), (2, 0)], [], 1⟩

/-- A concrete `Propose` message over the failing-decryption crypto. -/
abbrev cexMsg1 : Propose TestCryptoND := ⟨7, [9, 9, 9]⟩

/-- A validator instance over the failing-decryption crypto, holding a
proposal for index 1. -/
abbrev cexState3 : SyncKeyGen Nat TestCryptoND :=
  ⟨some 0, 0, [(0, 0), (1, 0), (2, 0)], [(1, ⟨5, [], []⟩)], 1⟩

/-- An observer instance: node id 9 is not in the three-node roster. -/
abbrev obsState : SyncKeyGen Nat TestCrypto :=
  (SyncKeyGen.new 9 0 [(0, 0), (1, 0), (2, 0)] 1 0).1

/-- The observer state after handling one `Propose` from node 1. -/
abbrev obsState2 : SyncKeyGen Nat TestCrypto :=
  (obsState.handle_propose 1 ⟨3, [4, 4, 4]⟩).2

/-- A validator instance with one complete and one incomplete proposal. -/
abbrev wState2 : SyncKeyGen Nat TestCrypto :=
  ⟨some 0, 0, [(0, 0), (1, 0), (2, 0)],
   [(0, ⟨3, [(1, 4), (2, 5)], [0, 1, 2]⟩), (1, ⟨6, [], [0]⟩)], 1⟩

/-- A freshly constructed three-node validator instance (index 0). -/
abbrev init5 : SyncKeyGen Nat TestCrypto :=
  (SyncKeyGen.new 0 0 [(0, 0), (1, 0), (2, 0)] 1 0).1

/-- The state after `init5` handles one `Propose` from node 0 and one
`Accept` for it from node 1. -/
abbrev st5 : SyncKeyGen Nat TestCrypto :=
  ((init5.handle_propose 0 ⟨0, [0, 0, 0]⟩).2.handle_accept 1 ⟨0, [0, 0, 0]⟩).2

omit [DecidableEq NodeUid] in
/-- Claim C4: `is_ready()` returns true if and only if the number of
proposals whose `accepts` set has size strictly greater than `2t` is strictly
greater than `t` (a proposal being complete iff `|accepts| > 2t`). -/
theorem claim4_is_ready_iff_count (st : SyncKeyGen NodeUid C) :
    st.is_ready = true ↔
      st.threshold <
        (st.proposals.filter
          (fun e => decide (2 * st.threshold < e.2.accepts.length))).length := by
  unfold SyncKeyGen.is_ready SyncKeyGen.count_complete
  rw [decide_eq_true_eq]
  constructor
  · intro h
    refine lt_of_lt_of_le h (le_of_eq ?_)
    rw [List.filter_map, List.length_map]
    rfl
  · intro h
    refine lt_of_lt_of_le h (le_of_eq ?_)
    rw [List.filter_map, List.length_map]
    rfl

/-- Claim C7: a second `Propose` from a proposer whose proposal already
exists returns `None` and leaves the whole instance state unchanged. -/
theorem claim7_duplicate_propose_ignored (st : SyncKeyGen NodeUid C)
    (sender_id : NodeUid) (msg : Propose C) (sender_idx : Nat)
    (p : ProposalState C)
    (h1 : st.node_index sender_id = some sender_idx)
    (h2 : alLookup sender_idx st.proposals = some p) :
    st.handle_propose sender_id msg = (none, st) := by
  simp [SyncKeyGen.handle_propose, h1, h2]

/-- Witness for C7 at a concrete instance with an existing proposal. -/
theorem claim7_witness :
    wStateProp.node_index 1 = some 1 ∧
    alLookup 1 wStateProp.proposals = some ⟨5, [], []⟩ ∧
    wStateProp.handle_propose 1 ⟨0, [0, 0, 0]⟩ = (none, wStateProp) :=
  ⟨rfl, rfl,
    claim7_duplicate_propose_ignored wStateProp 1 ⟨0, [0, 0, 0]⟩ 1 ⟨5, [], []⟩
      rfl rfl⟩

/-- Claim C1, amended: when decrypting the ciphertext at position `our_idx`
of the row vector fails, `handle_propose` returns `None` (the failure
propagates through `?`, producing no fault log), and the only state change is
the insertion of the new proposal state holding the commitment. -/
theorem claim1_decrypt_failure_returns_none (st : SyncKeyGen NodeUid C)
    (sender_id : NodeUid) (msg : Propose C) (our_idx sender_idx : Nat)
    (ct : C.Ciphertext)
    (h0 : st.our_idx = some our_idx)
    (h1 : st.node_index sender_id = some sender_idx)
    (h2 : alLookup sender_idx st.proposals = none)
    (h3 : msg.rows[our_idx]? = some ct)
    (h4 : C.decrypt st.sec_key ct = none) :
    st.handle_propose sender_id msg =
      (none,
        { st with
          proposals :=
            mapInsert sender_idx (ProposalState.new msg.commit) st.proposals }) := by
  simp [SyncKeyGen.handle_propose, h0, h1, h2, h3, h4]

/-- Witness for the amended C1: a concrete validator instance over a crypto
whose decryption fails; the message is dropped with `None`. -/
theorem claim1_witness :
    cexState1.our_idx = some 0 ∧
    cexState1.node_index 1 = some 1 ∧
    alLookup 1 cexState1.proposals = none ∧
    cexMsg1.rows[0]? = some 9 ∧
    TestCryptoND.decrypt cexState1.sec_key 9 = none ∧
    cexState1.handle_propose 1 cexMsg1 =
      (none,
        { cexState1 with
          proposals := mapInsert 1 (ProposalState.new cexMsg1.commit) [] }) :=
  ⟨rfl, rfl, rfl, rfl, rfl,
    claim1_decrypt_failure_returns_none cexState1 1 cexMsg1 0 1 9
      rfl rfl rfl rfl rfl⟩

/-- Counterexample to C1 as stated: at this concrete input every
precondition of the claim holds (validator instance, known unseen proposer,
decryption of our ciphertext fails), yet `handle_propose` returns `none` —
not `Some (Invalid ...)` with a fault log, as the claim asserts. -/
theorem claim1_counterexample :
    cexState1.our_idx = some 0 ∧
    cexState1.node_index 1 = some 1 ∧
    alLookup 1 cexState1.proposals = none ∧
    TestCryptoND.decrypt cexState1.sec_key 9 = none ∧
    (cexState1.handle_propose 1 cexMsg1).1 = none :=
  ⟨rfl, rfl, rfl, rfl, rfl⟩

theorem setInsert_fst_true_iff (x : Nat) (l : List Nat) :
    (setInsert x l).1 = true ↔ x ∉ l := by
  unfold setInsert
  split <;> simp [*]

theorem setInsert_fst_false_iff (x : Nat) (l : List Nat) :
    (setInsert x l).1 = false ↔ x ∈ l := by
  unfold setInsert
  split <;> simp [*]

omit [DecidableEq NodeUid] in
/-- If `handle_accept_or_err` succeeds, all three well-formedness checks
passed: the value count matched, a proposal existed, and the sender was not
yet among its acceptors. -/
theorem handle_accept_or_err_ok (st : SyncKeyGen NodeUid C) (sender_idx : Nat)
    (acc : Accept C) (st' : SyncKeyGen NodeUid C)
    (h : st.handle_accept_or_err sender_idx acc = (Except.ok (), st')) :
    acc.vals.length = st.pub_keys.length ∧
    ∃ p, alLookup acc.proposer_idx st.proposals = some p ∧
      sender_idx ∉ p.accepts := by
  unfold SyncKeyGen.handle_accept_or_err at h
  split at h
  · simp at h
  · rename_i hlen
    split at h
    · simp at h
    · rename_i proposal hp
      split at h
      · simp at h
      · rename_i hguard
        refine ⟨not_not.mp hlen, proposal, hp, ?_⟩
        refine (setInsert_fst_true_iff sender_idx proposal.accepts).mp ?_
        exact Bool.not_eq_false (setInsert sender_idx proposal.accepts).1 |>.mp hguard

/-- Claim C8: an `Accept` from an unknown sender is dropped silently with an
empty fault log and no state change; an `Accept` from a known sender with a
wrong value count, an unknown proposer, or a duplicate acceptor yields a
fault log containing exactly `(sender_id, invalid-accept)`. -/
theorem claim8_accept_error_paths (st : SyncKeyGen NodeUid C)
    (sender_id : NodeUid) (acc : Accept C) :
    (st.node_index sender_id = none → st.handle_accept sender_id acc = ([], st)) ∧
    (∀ sender_idx, st.node_index sender_id = some sender_idx →
      (acc.vals.length ≠ st.pub_keys.length ∨
        alLookup acc.proposer_idx st.proposals = none ∨
        (∃ p, alLookup acc.proposer_idx st.proposals = some p ∧
          sender_idx ∈ p.accepts)) →
      (st.handle_accept sender_id acc).1 =
        [(sender_id, FaultKind.InvalidAcceptMessage)]) := by
  constructor
  · intro h
    simp [SyncKeyGen.handle_accept, h]
  · intro sender_idx h hbad
    rcases hres : st.handle_accept_or_err sender_idx acc with ⟨r, st2⟩
    cases r with
    | error e => simp [SyncKeyGen.handle_accept, h, hres]
    | ok u =>
      cases u
      obtain ⟨hlen, p, hp, hmem⟩ := handle_accept_or_err_ok st sender_idx acc st2 hres
      rcases hbad with h1 | h2 | ⟨q, hq, hqmem⟩
      · exact absurd hlen h1
      · rw [hp] at h2
        exact Option.noConfusion h2
      · rw [hp] at hq
        refine absurd hqmem ?_
        injection hq with hq'
        rw [← hq']
        exact hmem

/-- Witness for C8: a concrete unknown-sender drop and a concrete
unknown-proposer fault. -/
theorem claim8_witness :
    (wStateProp.node_index 9 = none ∧
      wStateProp.handle_accept 9 ⟨1, [0, 0, 0]⟩ = ([], wStateProp)) ∧
    (wStateProp.node_index 2 = some 2 ∧
      alLookup 0 wStateProp.proposals = none ∧
      (wStateProp.handle_accept 2 ⟨0, [0, 0, 0]⟩).1 =
        [(2, FaultKind.InvalidAcceptMessage)]) :=
  ⟨⟨rfl, (claim8_accept_error_paths wStateProp 9 ⟨1, [0, 0, 0]⟩).1 rfl⟩,
   ⟨rfl, rfl,
    (claim8_accept_error_paths wStateProp 2 ⟨0, [0, 0, 0]⟩).2 2 rfl
      (Or.inr (Or.inl rfl))⟩⟩

theorem mem_insertSorted_self (x : Nat) (l : List Nat) :
    x ∈ insertSorted x l := by
  induction l with
  | nil => simp [insertSorted]
  | cons y ys ih =>
    unfold insertSorted
    split
    · simp
    · simp [ih]

theorem mem_setInsert_self (x : Nat) (l : List Nat) :
    x ∈ (setInsert x l).2 := by
  unfold setInsert
  split
  · assumption
  · exact mem_insertSorted_self x l

theorem alLookup_alUpdate_self {α : Type} (k : Nat) (f : α → α)
    (l : List (Nat × α)) :
    alLookup k (alUpdate k f l) = (alLookup k l).map f := by
  induction l with
  | nil => rfl
  | cons e rest ih =>
    obtain ⟨k', v⟩ := e
    by_cases hk : k' = k
    · subst hk
      simp [alUpdate, alLookup]
    · simp [alUpdate, alLookup, hk, Ne.symm hk, ih]

/-- Claim C3: on a validator instance, an `Accept` from a known, not-yet
recorded sender with the right value count and an existing proposal whose
value for us fails decryption, deserialization or commitment verification
yields a fault log containing `(sender_id, invalid-accept)`, and the sender
is nevertheless in that proposal's `accepts` set afterwards. -/
theorem claim3_accept_value_failure_still_counts (st : SyncKeyGen NodeUid C)
    (sender_id : NodeUid) (acc : Accept C) (sender_idx our_idx : Nat)
    (p : ProposalState C) (ct : C.Ciphertext)
    (h0 : st.our_idx = some our_idx)
    (h1 : st.node_index sender_id = some sender_idx)
    (hlen : acc.vals.length = st.pub_keys.length)
    (hp : alLookup acc.proposer_idx st.proposals = some p)
    (hmem : sender_idx ∉ p.accepts)
    (hct : acc.vals[our_idx]? = some ct)
    (hfail : C.decrypt st.sec_key ct = none ∨
      (∃ b, C.decrypt st.sec_key ct = some b ∧ (C.deserFr b = none ∨
        (∃ v, C.deserFr b = some v ∧
          beqG1 (C.bcEval p.commit (our_idx + 1) (sender_idx + 1))
            (C.g1MulBase v) = false)))) :
    (st.handle_accept sender_id acc).1 =
      [(sender_id, FaultKind.InvalidAcceptMessage)] ∧
    ∃ p', alLookup acc.proposer_idx
        (st.handle_accept sender_id acc).2.proposals = some p' ∧
      sender_idx ∈ p'.accepts := by
  have hfst := (setInsert_fst_true_iff sender_idx p.accepts).mpr hmem
  constructor
  · rcases hfail with hdec | ⟨b, hdec, hser | ⟨v, hser, hbeq⟩⟩
    · simp [SyncKeyGen.handle_accept, SyncKeyGen.handle_accept_or_err,
        h0, h1, hlen, hp, hct, hfst, hdec]
    · simp [SyncKeyGen.handle_accept, SyncKeyGen.handle_accept_or_err,
        h0, h1, hlen, hp, hct, hfst, hdec, hser]
    · simp [SyncKeyGen.handle_accept, SyncKeyGen.handle_accept_or_err,
        h0, h1, hlen, hp, hct, hfst, hdec, hser, hbeq]
  · refine ⟨{ p with accepts := (setInsert sender_idx p.accepts).2 }, ?_,
      mem_setInsert_self sender_idx p.accepts⟩
    rcases hfail with hdec | ⟨b, hdec, hser | ⟨v, hser, hbeq⟩⟩
    · simp [SyncKeyGen.handle_accept, SyncKeyGen.handle_accept_or_err,
        h0, h1, hlen, hp, hct, hfst, hdec, alLookup_alUpdate_self]
    · simp [SyncKeyGen.handle_accept, SyncKeyGen.handle_accept_or_err,
        h0, h1, hlen, hp, hct, hfst, hdec, hser, alLookup_alUpdate_self]
    · simp [SyncKeyGen.handle_accept, SyncKeyGen.handle_accept_or_err,
        h0, h1, hlen, hp, hct, hfst, hdec, hser, hbeq, alLookup_alUpdate_self]

/-- Witness for C3: a concrete validator whose decryption fails on an
otherwise well-formed `Accept`; the fault is logged and the acceptor is
still recorded. -/
theorem claim3_witness :
    cexState3.our_idx = some 0 ∧
    cexState3.node_index 2 = some 2 ∧
    alLookup 1 cexState3.proposals = some ⟨5, [], []⟩ ∧
    TestCryptoND.decrypt cexState3.sec_key 4 = none ∧
    ((cexState3.handle_accept 2 ⟨1, [4, 4, 4]⟩).1 =
        [(2, FaultKind.InvalidAcceptMessage)] ∧
      ∃ p', alLookup 1
          (cexState3.handle_accept 2 ⟨1, [4, 4, 4]⟩).2.proposals = some p' ∧
        2 ∈ p'.accepts) :=
  ⟨rfl, rfl, rfl, rfl,
    claim3_accept_value_failure_still_counts cexState3 2 ⟨1, [4, 4, 4]⟩ 2 0
      ⟨5, [], []⟩ 4 rfl rfl rfl rfl (by decide) rfl (Or.inl rfl)⟩

theorem length_insertSorted (x : Nat) (l : List Nat) :
    (insertSorted x l).length = l.length + 1 := by
  induction l with
  | nil => rfl
  | cons y ys ih =>
    unfold insertSorted
    split
    · simp
    · simp [ih]

theorem length_le_setInsert (x : Nat) (l : List Nat) :
    l.length ≤ (setInsert x l).2.length := by
  unfold setInsert
  split
  · exact Nat.le_refl _
  · rw [length_insertSorted]
    exact Nat.le_succ _

/-- Updating one proposal with a function that never shrinks its `accepts`
set cannot decrease the number of complete proposals. -/
theorem countP_alUpdate_ge {C : Crypto} (t k : Nat)
    (f : ProposalState C → ProposalState C)
    (hf : ∀ p : ProposalState C, p.accepts.length ≤ (f p).accepts.length)
    (l : List (Nat × ProposalState C)) :
    ((l.map Prod.snd).filter (fun p => p.is_complete t)).length ≤
      (((alUpdate k f l).map Prod.snd).filter (fun p => p.is_complete t)).length := by
  induction l with
  | nil => simp [alUpdate]
  | cons e rest ih =>
    obtain ⟨k', v⟩ := e
    unfold alUpdate
    split
    · simp only [List.map_cons, List.filter_cons]
      by_cases hc : v.is_complete t = true
      · have hfc : (f v).is_complete t = true := by
          unfold ProposalState.is_complete at hc ⊢
          rw [decide_eq_true_eq] at hc ⊢
          exact lt_of_lt_of_le hc (hf v)
        simp [hc, hfc]
      · by_cases hfc : (f v).is_complete t = true
        · simp only [hc, hfc, Bool.false_eq_true, if_false, if_true,
            List.length_cons]
          exact Nat.le_succ_of_le (Nat.le_refl _)
        · simp [hc, hfc]
    · simp only [List.map_cons, List.filter_cons]
      by_cases hc : v.is_complete t = true
      · simpa [hc] using Nat.succ_le_succ ih
      · simpa [hc] using ih

omit [DecidableEq NodeUid] in
/-- The state `handle_accept_or_err` returns never has fewer complete
proposals than the input state. -/
theorem handle_accept_or_err_count (st : SyncKeyGen NodeUid C)
    (sender_idx : Nat) (acc : Accept C) :
    st.count_complete ≤ (st.handle_accept_or_err sender_idx acc).2.count_complete := by
  have hacc : ∀ p : ProposalState C,
      p.accepts.length ≤ ((setInsert sender_idx p.accepts).2).length :=
    fun p => length_le_setInsert sender_idx p.accepts
  have hkeep : ∀ (w : ProposalState C → List (Nat × C.Fr))
      (p : ProposalState C), p.accepts.length =
        ({ p with values := w p } : ProposalState C).accepts.length :=
    fun _ _ => rfl
  unfold SyncKeyGen.handle_accept_or_err
  split
  · exact Nat.le_refl _
  · split
    · exact Nat.le_refl _
    · rename_i proposal hp
      split
      · exact countP_alUpdate_ge st.threshold acc.proposer_idx _ hacc st.proposals
      · split
        · exact countP_alUpdate_ge st.threshold acc.proposer_idx _ hacc st.proposals
        · split
          · exact countP_alUpdate_ge st.threshold acc.proposer_idx _ hacc st.proposals
          · split
            · exact countP_alUpdate_ge st.threshold acc.proposer_idx _ hacc
                st.proposals
            · split
              · exact countP_alUpdate_ge st.threshold acc.proposer_idx _ hacc
                  st.proposals
              · rename_i val hval
                split
                · exact Nat.le_trans
                    (countP_alUpdate_ge st.threshold acc.proposer_idx _ hacc
                      st.proposals)
                    (countP_alUpdate_ge st.threshold acc.proposer_idx
                      (fun p =>
                        { p with
                          values := mapInsert (sender_idx + 1) val p.values })
                      (fun p => Nat.le_refl p.accepts.length)
                      (alUpdate acc.proposer_idx
                        (fun p =>
                          { p with accepts := (setInsert sender_idx p.accepts).2 })
                        st.proposals))
                · exact countP_alUpdate_ge st.threshold acc.proposer_idx _ hacc
                    st.proposals

/-- Claim C9: `count_complete()` never decreases across a `handle_accept`
call: accepts sets only grow and proposals are never removed. -/
theorem claim9_count_complete_monotone (st : SyncKeyGen NodeUid C)
    (sender_id : NodeUid) (acc : Accept C) :
    st.count_complete ≤ (st.handle_accept sender_id acc).2.count_complete := by
  unfold SyncKeyGen.handle_accept
  split
  · exact Nat.le_refl _
  · rename_i sender_idx hn
    split
    · rename_i u st' h2
      have h := handle_accept_or_err_count st sender_idx acc
      rw [h2] at h
      exact h
    · rename_i e st' h2
      have h := handle_accept_or_err_count st sender_idx acc
      rw [h2] at h
      exact h

theorem map_vals_alUpdate {C : Crypto} (k : Nat)
    (f : ProposalState C → ProposalState C)
    (hf : ∀ p, (f p).values = p.values)
    (l : List (Nat × ProposalState C)) :
    (alUpdate k f l).map (fun e => (e.1, e.2.values)) =
      l.map (fun e => (e.1, e.2.values)) := by
  induction l with
  | nil => rfl
  | cons e rest ih =>
    obtain ⟨k', v⟩ := e
    unfold alUpdate
    split
    · simp [hf]
    · simp only [List.map_cons, ih]

omit [DecidableEq NodeUid] in
/-- For an observer, `handle_accept_or_err` leaves every proposal's `values`
map (and key) unchanged: only `accepts` can change. -/
theorem handle_accept_or_err_observer_values (st : SyncKeyGen NodeUid C)
    (h : st.our_idx = none) (sender_idx : Nat) (acc : Accept C) :
    ((st.handle_accept_or_err sender_idx acc).2.proposals).map
      (fun e => (e.1, e.2.values)) =
      st.proposals.map (fun e => (e.1, e.2.values)) := by
  unfold SyncKeyGen.handle_accept_or_err
  split
  · rfl
  · split
    · rfl
    · rw [h]
      split
      · exact map_vals_alUpdate acc.proposer_idx
          (fun p => { p with accepts := (setInsert sender_idx p.accepts).2 })
          (fun p => rfl) st.proposals
      · exact map_vals_alUpdate acc.proposer_idx
          (fun p => { p with accepts := (setInsert sender_idx p.accepts).2 })
          (fun p => rfl) st.proposals

theorem foldl_generate_snd_none {C : Crypto} (t : Nat)
    (l : List (ProposalState C)) (a : C.PolyCommit) :
    (l.foldl (fun acc proposal =>
      (C.pcAdd acc.1 (C.bcRow proposal.commit 0),
       acc.2.map (fun sk_val =>
         C.frAdd sk_val
           (C.polyEval (C.interpolate (proposal.values.take (t + 1))) 0))))
      (a, none)).2 = none := by
  induction l generalizing a with
  | nil => rfl
  | cons p rest ih => exact ih _

omit [DecidableEq NodeUid] in
/-- For an observer, the second component of `generate` is `None`. -/
theorem generate_observer_none (st : SyncKeyGen NodeUid C)
    (h : st.our_idx = none) : st.generate.2 = none := by
  unfold SyncKeyGen.generate
  rw [h]
  exact foldl_generate_snd_none st.threshold _ C.pcZero

/-- Claim C6: an observer instance (id absent from the roster) emits no
`Propose` at construction; its `handle_propose` always returns `None`, and
for a known first-time proposer the only state change is the recording of a
new proposal state holding the commitment; its `handle_accept` records
acceptors but never modifies any proposal's `values`; and `generate`
returns no secret key share. -/
theorem claim6_observer_no_secret (our_uid : NodeUid) (sec_key : C.SecretKey)
    (pub_keys : List (NodeUid × C.PublicKey)) (threshold : Nat)
    (sample : C.BivarPolyT)
    (habs : our_uid ∉ pub_keys.map Prod.fst) :
    (SyncKeyGen.new our_uid sec_key pub_keys threshold sample).2 = none ∧
    (SyncKeyGen.new our_uid sec_key pub_keys threshold sample).1.our_idx = none ∧
    (∀ st : SyncKeyGen NodeUid C, st.our_idx = none →
      (∀ sender_id msg, (st.handle_propose sender_id msg).1 = none) ∧
      (∀ sender_id msg sender_idx,
        st.node_index sender_id = some sender_idx →
        alLookup sender_idx st.proposals = none →
        (st.handle_propose sender_id msg).2 =
          { st with
            proposals :=
              mapInsert sender_idx (ProposalState.new msg.commit)
                st.proposals }) ∧
      (∀ sender_id acc,
        ((st.handle_accept sender_id acc).2.proposals).map
            (fun e => (e.1, e.2.values)) =
          st.proposals.map (fun e => (e.1, e.2.values))) ∧
      (∀ sender_id acc sender_idx p,
        st.node_index sender_id = some sender_idx →
        acc.vals.length = st.pub_keys.length →
        alLookup acc.proposer_idx st.proposals = some p →
        ∃ p', alLookup acc.proposer_idx
            (st.handle_accept sender_id acc).2.proposals = some p' ∧
          sender_idx ∈ p'.accepts) ∧
      st.generate.2 = none) := by
  have hidx : (pub_keys.map Prod.fst).findIdx?
      (fun uid => decide (uid = our_uid)) = none := by
    rw [List.findIdx?_eq_none_iff]
    intro x hx
    simp only [decide_eq_false_iff_not]
    intro hxe
    exact habs (hxe ▸ hx)
  refine ⟨?_, ?_, ?_⟩
  · unfold SyncKeyGen.new
    rw [hidx]
  · unfold SyncKeyGen.new
    rw [hidx]
  · intro st h
    refine ⟨?_, ?_, ?_, ?_, generate_observer_none st h⟩
    · intro sender_id msg
      unfold SyncKeyGen.handle_propose
      split
      · rfl
      · rw [h]
        split
        · rfl
        · rfl
    · intro sender_id msg sender_idx hn hlk
      simp [SyncKeyGen.handle_propose, hn, hlk, h]
    · intro sender_id acc
      unfold SyncKeyGen.handle_accept
      split
      · rfl
      · rename_i sender_idx hn
        split
        · rename_i u st' heq
          have hv := handle_accept_or_err_observer_values st h sender_idx acc
          rw [heq] at hv
          exact hv
        · rename_i e st' heq
          have hv := handle_accept_or_err_observer_values st h sender_idx acc
          rw [heq] at hv
          exact hv
    · intro sender_id acc sender_idx p hn hlen hp
      refine ⟨{ p with accepts := (setInsert sender_idx p.accepts).2 }, ?_,
        mem_setInsert_self sender_idx p.accepts⟩
      by_cases hdup : (setInsert sender_idx p.accepts).1 = false
      · simp [SyncKeyGen.handle_accept, SyncKeyGen.handle_accept_or_err,
          hn, hlen, hp, h, hdup, alLookup_alUpdate_self]
      · simp [SyncKeyGen.handle_accept, SyncKeyGen.handle_accept_or_err,
          hn, hlen, hp, h, hdup, alLookup_alUpdate_self]

/-- Witness for C6 at a concrete scenario: node 9 observes a three-node
roster, records node 1's commitment, and records node 2 as acceptor of
proposal 1 while keeping every `values` map empty. -/
theorem claim6_witness :
    ((9 : Nat) ∉
      ([(0, 0), (1, 0), (2, 0)] : List (Nat × TestCrypto.PublicKey)).map
        Prod.fst) ∧
    (SyncKeyGen.new 9 (0 : TestCrypto.SecretKey) [(0, 0), (1, 0), (2, 0)] 1
      0).2 = none ∧
    (obsState.handle_propose 1 ⟨3, [4, 4, 4]⟩).1 = none ∧
    (obsState.handle_propose 1 ⟨3, [4, 4, 4]⟩).2 =
      { obsState with
        proposals := mapInsert 1 (ProposalState.new 3) obsState.proposals } ∧
    (obsState.handle_accept 1 ⟨0, [4, 4, 4]⟩).2.proposals.map
        (fun e => (e.1, e.2.values)) =
      obsState.proposals.map (fun e => (e.1, e.2.values)) ∧
    (∃ p', alLookup 1
        (obsState2.handle_accept 2 ⟨1, [4, 4, 4]⟩).2.proposals = some p' ∧
      2 ∈ p'.accepts) ∧
    obsState.generate.2 = none := by
  have h := claim6_observer_no_secret 9 (0 : TestCrypto.SecretKey)
    [(0, 0), (1, 0), (2, 0)] 1 0 (by decide)
  exact ⟨by decide, h.1, (h.2.2 obsState rfl).1 1 ⟨3, [4, 4, 4]⟩,
    (h.2.2 obsState rfl).2.1 1 ⟨3, [4, 4, 4]⟩ 1 rfl rfl,
    (h.2.2 obsState rfl).2.2.1 1 ⟨0, [4, 4, 4]⟩,
    (h.2.2 obsState2 rfl).2.2.2.1 2 ⟨1, [4, 4, 4]⟩ 2 ⟨3, [], []⟩ rfl rfl rfl,
    (h.2.2 obsState rfl).2.2.2.2⟩

theorem sortByKey_sorted_eq {α : Type} (l : List (Nat × α))
    (h : (l.map Prod.fst).Pairwise (· < ·)) : sortByKey l = l := by
  induction l with
  | nil => rfl
  | cons e rest ih =>
    simp only [List.map_cons, List.pairwise_cons] at h
    obtain ⟨he, hrest⟩ := h
    rw [sortByKey, ih hrest]
    cases rest with
    | nil => rfl
    | cons f rest2 =>
      have hle : e.1 ≤ f.1 := le_of_lt (he f.1 (by simp))
      simp [insertByKey, hle]

theorem foldl_pair_none {C : Crypto} (t : Nat) (l : List (ProposalState C))
    (a : C.PolyCommit) :
    (l.foldl (fun acc proposal =>
      (C.pcAdd acc.1 (C.bcRow proposal.commit 0),
       acc.2.map (fun sk_val =>
         C.frAdd sk_val
           (C.polyEval (C.interpolate (proposal.values.take (t + 1))) 0))))
      (a, none)) =
      (l.foldl (fun a' p => C.pcAdd a' (C.bcRow p.commit 0)) a, none) := by
  induction l generalizing a with
  | nil => rfl
  | cons p rest ih => exact ih _

theorem foldl_pair_some {C : Crypto} (t : Nat) (l : List (ProposalState C))
    (a : C.PolyCommit) (s : C.Fr) :
    (l.foldl (fun acc proposal =>
      (C.pcAdd acc.1 (C.bcRow proposal.commit 0),
       acc.2.map (fun sk_val =>
         C.frAdd sk_val
           (C.polyEval (C.interpolate (proposal.values.take (t + 1))) 0))))
      (a, some s)) =
      (l.foldl (fun a' p => C.pcAdd a' (C.bcRow p.commit 0)) a,
       some (l.foldl (fun s' p => C.frAdd s'
         (C.polyEval (C.interpolate (p.values.take (t + 1))) 0)) s)) := by
  induction l generalizing a s with
  | nil => rfl
  | cons p rest ih => exact ih _ _

omit [DecidableEq NodeUid] in
/-- Claim C2: `generate()` returns exactly what the specification describes:
the sum of the row-0 commitments of all complete proposals in ascending
proposer-index order, paired with (for validators) the sum of the values at
0 of the polynomials interpolated through the lowest `t+1` value pairs, and
`None` for observers.  The hypothesis states that the proposal map's entry
list is in ascending key order, which is how a `BTreeMap` iterates. -/
theorem claim2_generate_refines_spec (st : SyncKeyGen NodeUid C)
    (hsorted : (st.proposals.map Prod.fst).Pairwise (· < ·)) :
    st.generate = generateSpec st := by
  have hsub : ((st.proposals.filter
      (fun e => decide (2 * st.threshold < e.2.accepts.length))).map
        Prod.fst).Sublist (st.proposals.map Prod.fst) :=
    List.Sublist.map _ (List.filter_sublist _)
  have hsort : sortByKey (st.proposals.filter
      (fun e => decide (2 * st.threshold < e.2.accepts.length))) =
      st.proposals.filter
        (fun e => decide (2 * st.threshold < e.2.accepts.length)) :=
    sortByKey_sorted_eq _ (List.Pairwise.sublist hsub hsorted)
  have hflt : (st.proposals.map Prod.snd).filter
      (fun proposal => proposal.is_complete st.threshold) =
      (st.proposals.filter
        (fun e => decide (2 * st.threshold < e.2.accepts.length))).map
        Prod.snd := by
    rw [List.filter_map]
    rfl
  unfold SyncKeyGen.generate generateSpec
  rw [hsort, hflt]
  cases h : st.our_idx with
  | none =>
    simp only [Option.map_none]
    exact foldl_pair_none st.threshold _ C.pcZero
  | some i =>
    simp only [Option.map_some]
    exact foldl_pair_some st.threshold _ C.pcZero C.frZero

/-- Witness for C2 at a concrete two-proposal validator state. -/
theorem claim2_witness :
    ((wState2.proposals.map Prod.fst).Pairwise (· < ·)) ∧
    wState2.generate = generateSpec wState2 :=
  ⟨by decide, claim2_generate_refines_spec wState2 (by decide)⟩

theorem alLookup_mapInsert_self {α : Type} (k : Nat) (v : α)
    (l : List (Nat × α)) : alLookup k (mapInsert k v l) = some v := by
  induction l with
  | nil => simp [mapInsert, alLookup]
  | cons e rest ih =>
    obtain ⟨k', v'⟩ := e
    unfold mapInsert
    split
    · simp [alLookup]
    · split
      · simp [alLookup]
      · rename_i hlt heq
        have hne : k ≠ k' := heq
        simp [alLookup, hne, ih]

theorem alLookup_mapInsert_ne {α : Type} {j k : Nat} (hne : j ≠ k) (v : α)
    (l : List (Nat × α)) : alLookup j (mapInsert k v l) = alLookup j l := by
  induction l with
  | nil => simp [mapInsert, alLookup, hne]
  | cons e rest ih =>
    obtain ⟨k', v'⟩ := e
    unfold mapInsert
    split
    · simp [alLookup, hne]
    · split
      · rename_i hlt heq
        subst heq
        simp [alLookup, hne]
      · by_cases hj : j = k'
        · subst hj
          simp [alLookup]
        · simp [alLookup, hj, ih]

theorem alLookup_alUpdate_ne {α : Type} {j k : Nat} (hne : j ≠ k)
    (f : α → α) (l : List (Nat × α)) :
    alLookup j (alUpdate k f l) = alLookup j l := by
  induction l with
  | nil => rfl
  | cons e rest ih =>
    obtain ⟨k', v⟩ := e
    unfold alUpdate
    split
    · rename_i heq
      subst heq
      simp [alLookup, hne]
    · by_cases hj : j = k'
      · subst hj
        simp [alLookup]
      · simp [alLookup, hj, ih]

theorem beqG1_eq {C : Crypto} {a b : C.G1} (h : beqG1 a b = true) : a = b := by
  unfold beqG1 at h
  exact @of_decide_eq_true (a = b) (C.g1DecEq a b) h

/-- The first component of `new` always has the computed index, the given
keys and no proposals. -/
theorem new_fst (our_uid : NodeUid) (sec_key : C.SecretKey)
    (pub_keys : List (NodeUid × C.PublicKey)) (threshold : Nat)
    (sample : C.BivarPolyT) :
    (SyncKeyGen.new our_uid sec_key pub_keys threshold sample).1 =
      ⟨(pub_keys.map Prod.fst).findIdx? (fun uid => decide (uid = our_uid)),
        sec_key, pub_keys, [], threshold⟩ := by
  unfold SyncKeyGen.new
  cases h : (pub_keys.map Prod.fst).findIdx? (fun uid => decide (uid = our_uid)) with
  | none => simp [h]
  | some i => simp [h]

/-- A freshly constructed instance satisfies the values invariant
(vacuously: it has no proposals). -/
theorem values_verified_new (our_uid : NodeUid) (sec_key : C.SecretKey)
    (pub_keys : List (NodeUid × C.PublicKey)) (threshold : Nat)
    (sample : C.BivarPolyT) :
    ValuesVerified (SyncKeyGen.new our_uid sec_key pub_keys threshold
      sample).1 := by
  rw [new_fst]
  intro i hi pidx p hp
  exact absurd hp (by simp [alLookup])

/-- `handle_propose` preserves the values invariant: the only mutation is
the insertion of a fresh proposal state with an empty `values` map. -/
theorem values_verified_propose (st : SyncKeyGen NodeUid C)
    (hv : ValuesVerified st) (sender_id : NodeUid) (msg : Propose C) :
    ValuesVerified (st.handle_propose sender_id msg).2 := by
  unfold SyncKeyGen.handle_propose
  split
  · exact hv
  · rename_i sender_idx hn
    split
    · exact hv
    · rename_i hlk
      have hins : ValuesVerified ({ st with
          proposals := mapInsert sender_idx (ProposalState.new msg.commit)
            st.proposals } : SyncKeyGen NodeUid C) := by
        intro i hi pidx p hp s v hsv
        by_cases hpe : pidx = sender_idx
        · subst hpe
          rw [alLookup_mapInsert_self] at hp
          cases hp
          exact absurd hsv (by simp [ProposalState.new, alLookup])
        · rw [alLookup_mapInsert_ne hpe] at hp
          exact hv i hi pidx p hp s v hsv
      cases hoi : st.our_idx with
      | none =>
        rw [hoi] at hins
        exact hins
      | some oi =>
        rw [hoi] at hins
        dsimp only
        cases msg.rows[oi]? with
        | none => exact hins
        | some ct =>
          dsimp only
          cases C.decrypt st.sec_key ct with
          | none => exact hins
          | some ser_row =>
            dsimp only
            cases C.deserPoly ser_row with
            | none => exact hins
            | some row =>
              repeat' first
              | exact hins
              | split

omit [DecidableEq NodeUid] in
/-- `handle_accept_or_err` preserves the values invariant: the `accepts`
update keeps `values` and `commit`, and a value is inserted only after the
commitment check succeeded. -/
theorem values_verified_or_err (st : SyncKeyGen NodeUid C)
    (hv : ValuesVerified st) (sender_idx : Nat) (acc : Accept C) :
    ValuesVerified (st.handle_accept_or_err sender_idx acc).2 := by
  unfold SyncKeyGen.handle_accept_or_err
  split
  · exact hv
  · split
    · exact hv
    · rename_i proposal hp
      have hst1 : ValuesVerified ({ st with
          proposals := alUpdate acc.proposer_idx
            (fun p => { p with accepts := (setInsert sender_idx p.accepts).2 })
            st.proposals } : SyncKeyGen NodeUid C) := by
        intro i hi pidx p hp2 s v hsv
        by_cases hpe : pidx = acc.proposer_idx
        · subst hpe
          rw [alLookup_alUpdate_self] at hp2
          cases hq : alLookup acc.proposer_idx st.proposals with
          | none => rw [hq] at hp2; cases hp2
          | some q =>
            rw [hq] at hp2
            cases hp2
            exact hv i hi _ q hq s v hsv
        · rw [alLookup_alUpdate_ne hpe] at hp2
          exact hv i hi pidx p hp2 s v hsv
      split
      · exact hst1
      · split
        · exact hst1
        · rename_i our_idx hoi
          split
          · exact hst1
          · split
            · exact hst1
            · split
              · exact hst1
              · rename_i val hval
                split
                · rename_i hbeq
                  intro i hi pidx p hp2 s v hsv
                  have hi' : st.our_idx = some i := hi
                  have hio : our_idx = i := by
                    rw [hoi] at hi'
                    exact Option.some.inj hi'
                  by_cases hpe : pidx = acc.proposer_idx
                  · subst hpe
                    rw [alLookup_alUpdate_self, alLookup_alUpdate_self,
                      hp] at hp2
                    have hp2' : some ({ proposal with
                        accepts := (setInsert sender_idx proposal.accepts).2,
                        values := mapInsert (sender_idx + 1) val
                          proposal.values } : ProposalState C) = some p := hp2
                    cases hp2'
                    by_cases hs : s = sender_idx + 1
                    · subst hs
                      have hsv' : alLookup (sender_idx + 1)
                          (mapInsert (sender_idx + 1) val proposal.values) =
                          some v := hsv
                      rw [alLookup_mapInsert_self] at hsv'
                      cases hsv'
                      show C.bcEval proposal.commit (i + 1) (sender_idx + 1) =
                        C.g1MulBase val
                      rw [← hio]
                      exact beqG1_eq hbeq
                    · have hsv' : alLookup s
                          (mapInsert (sender_idx + 1) val proposal.values) =
                          some v := hsv
                      rw [alLookup_mapInsert_ne hs] at hsv'
                      show C.bcEval proposal.commit (i + 1) s = C.g1MulBase v
                      exact hv i hi' acc.proposer_idx proposal hp s v hsv'
                  · rw [alLookup_alUpdate_ne hpe, alLookup_alUpdate_ne hpe]
                      at hp2
                    exact hv i hi' pidx p hp2 s v hsv
                · exact hst1

/-- `handle_accept` preserves the values invariant. -/
theorem values_verified_accept (st : SyncKeyGen NodeUid C)
    (hv : ValuesVerified st) (sender_id : NodeUid) (acc : Accept C) :
    ValuesVerified (st.handle_accept sender_id acc).2 := by
  unfold SyncKeyGen.handle_accept
  split
  · exact hv
  · rename_i sender_idx hn
    split
    · rename_i u st' heq
      have h := values_verified_or_err st hv sender_idx acc
      rw [heq] at h
      exact h
    · rename_i e st' heq
      have h := values_verified_or_err st hv sender_idx acc
      rw [heq] at h
      exact h

/-- The values invariant holds in every reachable state. -/
theorem values_verified_reach (st0 st : SyncKeyGen NodeUid C)
    (h : Reach st0 st) (h0 : ValuesVerified st0) : ValuesVerified st := by
  induction h with
  | refl => exact h0
  | propose st' sender_id msg h ih =>
    exact values_verified_propose st' ih sender_id msg
  | accept st' sender_id acc h ih =>
    exact values_verified_accept st' ih sender_id acc

/-- Claim C5: in every state reachable from a freshly constructed validator
instance by `handle_propose` and `handle_accept` calls, every entry `(s, v)`
of any proposal's `values` map satisfies
`commit.evaluate(our_idx + 1, s) = g₁ · v` for that proposal's stored
bivariate commitment. -/
theorem claim5_values_invariant (our_uid : NodeUid) (sec_key : C.SecretKey)
    (pub_keys : List (NodeUid × C.PublicKey)) (threshold : Nat)
    (sample : C.BivarPolyT) (st : SyncKeyGen NodeUid C)
    (h : Reach (SyncKeyGen.new our_uid sec_key pub_keys threshold sample).1 st)
    (i : Nat) (hi : st.our_idx = some i)
    (pidx : Nat) (p : ProposalState C)
    (hp : alLookup pidx st.proposals = some p)
    (s : Nat) (v : C.Fr) (hval : alLookup s p.values = some v) :
    C.bcEval p.commit (i + 1) s = C.g1MulBase v :=
  values_verified_reach _ st h
    (values_verified_new our_uid sec_key pub_keys threshold sample)
    i hi pidx p hp s v hval

/-- Witness for C5: a concrete two-step run in which node 1's accepted value
for proposal 0 was stored, and the commitment equation holds for it. -/
theorem claim5_witness :
    st5.our_idx = some 0 ∧
    alLookup 0 st5.proposals =
      some (⟨0, [(2, 0)], [1]⟩ : ProposalState TestCrypto) ∧
    alLookup 2 ([(2, 0)] : List (Nat × TestCrypto.Fr)) = some 0 ∧
    TestCrypto.bcEval 0 (0 + 1) 2 = TestCrypto.g1MulBase 0 :=
  ⟨rfl, rfl, rfl,
    claim5_values_invariant 0 0 [(0, 0), (1, 0), (2, 0)] 1 0 st5
      (Reach.accept init5 (init5.handle_propose 0 ⟨0, [0, 0, 0]⟩).2 1
        ⟨0, [0, 0, 0]⟩
        (Reach.propose init5 init5 0 ⟨0, [0, 0, 0]⟩ (Reach.refl init5)))
      0 rfl 0 ⟨0, [(2, 0)], [1]⟩ rfl 2 0 rfl⟩

/-- `handle_propose` changes neither `our_idx` nor `pub_keys`. -/
theorem handle_propose_frame (st : SyncKeyGen NodeUid C)
    (sender_id : NodeUid) (msg : Propose C) :
    (st.handle_propose sender_id msg).2.our_idx = st.our_idx ∧
    (st.handle_propose sender_id msg).2.pub_keys = st.pub_keys := by
  unfold SyncKeyGen.handle_propose
  split
  · exact ⟨rfl, rfl⟩
  · split
    · exact ⟨rfl, rfl⟩
    · repeat' first
      | exact ⟨rfl, rfl⟩
      | split
      | dsimp only

omit [DecidableEq NodeUid] in
/-- `handle_accept_or_err` changes neither `our_idx` nor `pub_keys`. -/
theorem handle_accept_or_err_frame (st : SyncKeyGen NodeUid C)
    (sender_idx : Nat) (acc : Accept C) :
    (st.handle_accept_or_err sender_idx acc).2.our_idx = st.our_idx ∧
    (st.handle_accept_or_err sender_idx acc).2.pub_keys = st.pub_keys := by
  unfold SyncKeyGen.handle_accept_or_err
  repeat' first
  | exact ⟨rfl, rfl⟩
  | split

/-- `handle_accept` changes neither `our_idx` nor `pub_keys`. -/
theorem handle_accept_frame (st : SyncKeyGen NodeUid C)
    (sender_id : NodeUid) (acc : Accept C) :
    (st.handle_accept sender_id acc).2.our_idx = st.our_idx ∧
    (st.handle_accept sender_id acc).2.pub_keys = st.pub_keys := by
  unfold SyncKeyGen.handle_accept
  split
  · exact ⟨rfl, rfl⟩
  · rename_i sender_idx hn
    split
    · rename_i u st' heq
      have h := handle_accept_or_err_frame st sender_idx acc
      rw [heq] at h
      exact h
    · rename_i e st' heq
      have h := handle_accept_or_err_frame st sender_idx acc
      rw [heq] at h
      exact h

/-- Well-indexedness holds in every reachable state: the handlers never
touch `our_idx` or `pub_keys`. -/
theorem well_indexed_reach (st0 st : SyncKeyGen NodeUid C)
    (h : Reach st0 st) (h0 : WellIndexed st0) : WellIndexed st := by
  induction h with
  | refl => exact h0
  | propose st' sender_id msg h ih =>
    intro i hi
    obtain ⟨ho, hk⟩ := handle_propose_frame st' sender_id msg
    rw [ho] at hi
    rw [hk]
    exact ih i hi
  | accept st' sender_id acc h ih =>
    intro i hi
    obtain ⟨ho, hk⟩ := handle_accept_frame st' sender_id acc
    rw [ho] at hi
    rw [hk]
    exact ih i hi

/-- A freshly constructed instance is well-indexed: a validator's index is
its position among the roster keys. -/
theorem well_indexed_new (our_uid : NodeUid) (sec_key : C.SecretKey)
    (pub_keys : List (NodeUid × C.PublicKey)) (threshold : Nat)
    (sample : C.BivarPolyT) :
    WellIndexed (SyncKeyGen.new our_uid sec_key pub_keys threshold
      sample).1 := by
  rw [new_fst]
  intro i hi
  have hlt := (List.findIdx?_eq_some_iff_getElem.mp hi).1
  simpa using hlt

omit [DecidableEq NodeUid] in
/-- On a well-indexed state, the `values[our_idx]` access inside
`handle_accept_or_err` is in bounds: the length check guarantees
`|values| = |pub_keys|` and `our_idx < |pub_keys|`. -/
theorem or_err_no_oob (st : SyncKeyGen NodeUid C) (hw : WellIndexed st)
    (sender_idx : Nat) (acc : Accept C) :
    (st.handle_accept_or_err sender_idx acc).1 ≠
      Except.error "index out of bounds" := by
  unfold SyncKeyGen.handle_accept_or_err
  split
  · simp
  · rename_i hlen
    split
    · simp
    · rename_i proposal hp
      split
      · simp
      · split
        · simp
        · rename_i our_idx hoi
          split
          · rename_i hnone
            have hio : our_idx < acc.vals.length := by
              rw [not_not.mp hlen]
              exact hw our_idx hoi
            rw [List.getElem?_eq_none_iff] at hnone
            exact absurd hio (Nat.not_lt.mpr hnone)
          · split
            · simp
            · split
              · simp
              · split
                · simp
                · simp

/-- Claim C10: in every state reachable from a freshly constructed
instance, the direct index `values[our_idx]` in `handle_accept_or_err` is in
bounds and never panics: `our_idx` is a roster position, so it is smaller
than the roster size, and the preceding check forces the value count to
equal the roster size. -/
theorem claim10_accept_index_in_bounds (our_uid : NodeUid)
    (sec_key : C.SecretKey) (pub_keys : List (NodeUid × C.PublicKey))
    (threshold : Nat) (sample : C.BivarPolyT) (st : SyncKeyGen NodeUid C)
    (h : Reach (SyncKeyGen.new our_uid sec_key pub_keys threshold sample).1 st)
    (sender_idx : Nat) (acc : Accept C) :
    (st.handle_accept_or_err sender_idx acc).1 ≠
      Except.error "index out of bounds" :=
  or_err_no_oob st
    (well_indexed_reach _ st h
      (well_indexed_new our_uid sec_key pub_keys threshold sample))
    sender_idx acc

/-- Witness for C10 at the freshly constructed three-node instance. -/
theorem claim10_witness :
    (init5.handle_accept_or_err 1 ⟨0, [0, 0, 0]⟩).1 ≠
      Except.error "index out of bounds" :=
  claim10_accept_index_in_bounds 0 0 [(0, 0), (1, 0), (2, 0)] 1 0 init5
    (Reach.refl init5) 1 ⟨0, [0, 0, 0]⟩
